import Mathlib

set_option maxRecDepth 200000

/-!
Verification development for the extraction-and-normalization pipeline of
`agent1.1.py` (a conversational calendar assistant).  The Python functions
`_extract_calendar_events`, `_adjust_event_dates`, `_ask_for_confirmation`,
`_calculate_duration` and the event-detection display in `chat` are shallowly
embedded as executable Lean functions.

Modelling conventions:
* Python `datetime` values are pairs of a wall-clock reading (seconds since
  1970-01-01T00:00:00 of the clock face) and an optional fixed UTC offset in
  seconds (`none` = naive).  Time zones are modelled as fixed UTC offsets;
  daylight-saving transitions are outside the model.
* Python exceptions (`KeyError`, `TypeError`, `ValueError` from
  `datetime.fromisoformat`, `AttributeError` from `.lower()`) are modelled by
  the `Except PyErr` monad; the `try/except` blocks of the source become
  `match` on the `Except` value.
* `json.loads` is modelled by an executable recursive-descent decoder over
  `List Char` covering objects, arrays, strings (with the standard escapes),
  integers, booleans and null; floating-point literals are not modelled (no
  input considered here contains one).
* `re.sub(r'```json\s*|\s*```', '', text)` is modelled exactly, including the
  leftmost-match, first-alternative-preferred, greedy `\s*` semantics of the
  Python `re` engine.
* The loops of the source are written with an explicit fuel argument so that
  every definition evaluates inside the kernel; fuel-irrelevance and
  fuel-sufficiency lemmas recover the loop equations.
-/

/-- Backtick character, written by code so the source file stays free of raw
backticks outside strings. -/
def tickChar : Char := '\x60'

/-- Python whitespace class `\s` (ASCII part), also the default strip set of
`str.strip()`. -/
def isPySpace (c : Char) : Bool :=
  c = ' ' || c = '\t' || c = '\n' || c = '\r' || c = '\x0b' || c = '\x0c'

/-- Literal-prefix test on character lists: `startsWithL p l` holds when `p`
is an initial segment of `l`. -/
def startsWithL : List Char → List Char → Bool
  | [], _ => true
  | _ :: _, [] => false
  | p :: ps, c :: cs => p = c && startsWithL ps cs

/-- Contiguous-substring test (Python `in` on strings): `containsSub n h`. -/
def containsSub (n : List Char) : List Char → Bool
  | [] => startsWithL n []
  | c :: cs => startsWithL n (c :: cs) || containsSub n cs

/-- ASCII lower-casing of a character list (Python `str.lower`). -/
def lowerL (l : List Char) : List Char := l.map Char.toLower

/-- The fence opener with language tag that the source's regex names
literally: the seven characters of the first regex alternative. -/
def fenceTagL : List Char := "\x60\x60\x60json".data

/-- Three backticks, the literal part of the second regex alternative. -/
def ticksL : List Char := "\x60\x60\x60".data

/-- One scanning pass of `re.sub(r'```json\s*|\s*```', '', ·)` with explicit
fuel.  At each position the first alternative (fence tag plus greedy trailing
whitespace) is tried, then the second (greedy whitespace run followed by three
backticks); on no match one character is emitted.  Fuel bounds the number of
scanning steps; each step consumes at least one character, so fuel equal to
the input length suffices (`reSubFenceAux_irrel` below makes the definition
independent of the exact fuel). -/
def reSubFenceAux : Nat → List Char → List Char
  | 0, l => l
  | _ + 1, [] => []
  | f + 1, c :: cs =>
    if startsWithL fenceTagL (c :: cs) then
      reSubFenceAux f (((c :: cs).drop 7).dropWhile isPySpace)
    else
      let rest := (c :: cs).dropWhile isPySpace
      if startsWithL ticksL rest then
        reSubFenceAux f (rest.drop 3)
      else
        c :: reSubFenceAux f cs

/-- The regex substitution of source line 134, with canonical fuel. -/
def reSubFence (l : List Char) : List Char := reSubFenceAux l.length l

/-- Python `str.strip()`: drop leading and trailing whitespace. -/
def stripL (l : List Char) : List Char :=
  ((l.dropWhile isPySpace).reverse.dropWhile isPySpace).reverse

/-- The cleaned text of source line 134:
`re.sub(r'```json\s*|\s*```', '', llm_response).strip()`. -/
def cleanText (l : List Char) : List Char := stripL (reSubFence l)

/-- JSON values as produced by `json.loads` (floating-point numbers are not
modelled; no input considered here contains one).  Object fields are kept in
insertion order with later duplicate keys overwriting earlier ones, exactly
like a Python `dict` built by the stdlib decoder. -/
inductive JValue where
  | jnull : JValue
  | jbool : Bool → JValue
  | jnum : Int → JValue
  | jstr : List Char → JValue
  | jarr : List JValue → JValue
  | jobj : List (List Char × JValue) → JValue

/-- Insert or overwrite a key in an object field list, preserving the
position of an existing key (Python `dict` assignment semantics). -/
def setPair (fs : List (List Char × JValue)) (k : List Char) (v : JValue) :
    List (List Char × JValue) :=
  match fs with
  | [] => [(k, v)]
  | (k', v') :: rest =>
    if k' = k then (k', v) :: rest else (k', v') :: setPair rest k v

/-- Association lookup on object fields (Python `dict` indexing; keys are
unique because `setPair` overwrites). -/
def lookupPair (fs : List (List Char × JValue)) (k : List Char) :
    Option JValue :=
  match fs with
  | [] => none
  | (k', v) :: rest => if k' = k then some v else lookupPair rest k

/-- JSON structural whitespace (RFC 8259). -/
def isJsonWs (c : Char) : Bool := c = ' ' || c = '\t' || c = '\n' || c = '\r'

/-- Skip JSON structural whitespace. -/
def skipJWs (l : List Char) : List Char := l.dropWhile isJsonWs

/-- Decode one JSON string body after the opening quote, handling the
standard escapes.  Returns the decoded characters and the rest of the
input. -/
def pStr : List Char → Option (List Char × List Char)
  | [] => none
  | c :: r =>
    if c = '"' then some ([], r)
    else if c = '\\' then
      match r with
      | [] => none
      | e :: r' =>
        if e = '"' then (pStr r').map (fun p => ('"' :: p.1, p.2))
        else if e = '\\' then (pStr r').map (fun p => ('\\' :: p.1, p.2))
        else if e = '/' then (pStr r').map (fun p => ('/' :: p.1, p.2))
        else if e = 'n' then (pStr r').map (fun p => ('\n' :: p.1, p.2))
        else if e = 't' then (pStr r').map (fun p => ('\t' :: p.1, p.2))
        else if e = 'r' then (pStr r').map (fun p => ('\r' :: p.1, p.2))
        else if e = 'b' then (pStr r').map (fun p => ('\x08' :: p.1, p.2))
        else if e = 'f' then (pStr r').map (fun p => ('\x0c' :: p.1, p.2))
        else none
    else (pStr r).map (fun p => (c :: p.1, p.2))

/-- Greedily read decimal digits, returning their value and the rest. -/
def pDigits : List Char → Nat → Nat × List Char
  | [], acc => (acc, [])
  | c :: r, acc =>
    if c.isDigit then pDigits r (acc * 10 + (c.toNat - 48)) else (acc, c :: r)

mutual

/-- Decode one JSON value; the head of the input is already significant
(structural whitespace skipped by the caller). -/
def pVal : Nat → List Char → Option (JValue × List Char)
  | 0, _ => none
  | _ + 1, [] => none
  | f + 1, c :: r =>
    if c = '"' then (pStr r).map (fun p => (JValue.jstr p.1, p.2))
    else if c = '\x7b' then
      let r' := skipJWs r
      match r' with
      | '\x7d' :: rest => some (JValue.jobj [], rest)
      | _ => (pObjItems f [] r').map (fun p => (JValue.jobj p.1, p.2))
    else if c = '[' then
      let r' := skipJWs r
      match r' with
      | ']' :: rest => some (JValue.jarr [], rest)
      | _ => (pArrItems f r').map (fun p => (JValue.jarr p.1, p.2))
    else if c = 't' then
      if startsWithL "rue".data r then some (JValue.jbool true, r.drop 3)
      else none
    else if c = 'f' then
      if startsWithL "alse".data r then some (JValue.jbool false, r.drop 4)
      else none
    else if c = 'n' then
      if startsWithL "ull".data r then some (JValue.jnull, r.drop 3)
      else none
    else if c = '-' then
      match r with
      | d :: _ =>
        if d.isDigit then
          let p := pDigits r 0
          some (JValue.jnum (-(p.1 : Int)), p.2)
        else none
      | [] => none
    else if c.isDigit then
      let p := pDigits (c :: r) 0
      some (JValue.jnum (p.1 : Int), p.2)
    else none

/-- Decode the comma-separated items of a JSON array, after `[` and leading
whitespace, where the array is known to be non-empty. -/
def pArrItems : Nat → List Char → Option (List JValue × List Char)
  | 0, _ => none
  | f + 1, l => do
    let (v, r) ← pVal f l
    match skipJWs r with
    | ',' :: r' => do
      let (vs, r'') ← pArrItems f (skipJWs r')
      pure (v :: vs, r'')
    | ']' :: r' => pure ([v], r')
    | _ => none

/-- Decode the comma-separated members of a JSON object, after the opening
brace and leading whitespace, where the object is known to be non-empty.
The accumulator is the Python `dict` built so far by successive assignment:
first occurrence of a key fixes its position, the last fixes its value,
exactly as in `json.loads`. -/
def pObjItems : Nat → List (List Char × JValue) → List Char →
    Option (List (List Char × JValue) × List Char)
  | 0, _, _ => none
  | f + 1, acc, l =>
    match l with
    | '"' :: r => do
      let (k, r₁) ← pStr r
      match skipJWs r₁ with
      | ':' :: r₂ => do
        let (v, r₃) ← pVal f (skipJWs r₂)
        match skipJWs r₃ with
        | ',' :: r₄ => pObjItems f (setPair acc k v) (skipJWs r₄)
        | '\x7d' :: r₄ => pure (setPair acc k v, r₄)
        | _ => none
      | _ => none
    | _ => none

end

/-- The model of `json.loads`: decode one value surrounded by optional
structural whitespace, requiring the whole input to be consumed; `none`
models `json.JSONDecodeError`. -/
def jsonDecode (l : List Char) : Option JValue :=
  match pVal (2 * l.length + 8) (skipJWs l) with
  | some (v, r) => if skipJWs r = [] then some v else none
  | none => none

example : jsonDecode "\x7b\x7d".data = some (JValue.jobj []) := by rfl

example : jsonDecode "no events here".data = none := by rfl

example : jsonDecode "[1, 2]".data =
    some (JValue.jarr [JValue.jnum 1, JValue.jnum 2]) := by rfl

example :
    jsonDecode "\x7b\"a\":\"b\"\x7d".data =
    some (JValue.jobj [("a".data, JValue.jstr "b".data)]) := by rfl

/-! ## Calendar arithmetic and the `datetime` model -/

/-- Gregorian leap-year predicate. -/
def isLeap (y : Int) : Bool := y % 4 = 0 && (y % 100 ≠ 0 || y % 400 = 0)

/-- Length of a month in the proleptic Gregorian calendar. -/
def daysInMonth (y m : Int) : Int :=
  if m = 2 then (if isLeap y then 29 else 28)
  else if m = 4 || m = 6 || m = 9 || m = 11 then 30
  else 31

/-- Days since 1970-01-01 of a civil date (standard era-based algorithm, as
used by every proleptic-Gregorian date library including CPython's
`datetime`). -/
def daysFromCivil (y m d : Int) : Int :=
  let y' := if m ≤ 2 then y - 1 else y
  let era := y'.fdiv 400
  let yoe := y' - era * 400
  let mp := (m + 9).emod 12
  let doy := (153 * mp + 2).fdiv 5 + d - 1
  let doe := yoe * 365 + yoe.fdiv 4 - yoe.fdiv 100 + doy
  era * 146097 + doe - 719468

/-- Civil date `(year, month, day)` of a day count since 1970-01-01 (inverse
of `daysFromCivil`). -/
def civilFromDays (z : Int) : Int × Int × Int :=
  let z' := z + 719468
  let era := z'.fdiv 146097
  let doe := z' - era * 146097
  let yoe := (doe - doe.fdiv 1460 + doe.fdiv 36524 - doe.fdiv 146096).fdiv 365
  let y := yoe + era * 400
  let doy := doe - (365 * yoe + yoe.fdiv 4 - yoe.fdiv 100)
  let mp := (5 * doy + 2).fdiv 153
  let d := doy - (153 * mp + 2).fdiv 5 + 1
  let m := if mp < 10 then mp + 3 else mp - 9
  (if m ≤ 2 then y + 1 else y, m, d)

example : daysFromCivil 1970 1 1 = 0 := by decide
example : daysFromCivil 2024 1 1 = 19723 := by decide
example : daysFromCivil 2024 1 6 = 19728 := by decide
example : daysFromCivil 2024 1 12 = 19734 := by decide
example : civilFromDays 19734 = (2024, 1, 12) := by decide
example : civilFromDays 0 = (1970, 1, 1) := by decide

/-- A parsed `datetime` value: a wall-clock reading in seconds since the
clock face 1970-01-01T00:00:00 together with an optional fixed UTC offset in
seconds.  `off = none` models a naive datetime (`tzinfo is None`). -/
structure PyDT where
  wall : Int
  off : Option Int

/-- An aware `datetime` value (after timezone resolution every datetime in
the normalizer is aware and carries the context's zone). -/
structure AwDT where
  wall : Int
  off : Int
deriving DecidableEq

/-- Absolute instant of an aware datetime (UTC seconds): wall reading minus
UTC offset.  Python compares aware datetimes by exactly this quantity. -/
def instantA (a : AwDT) : Int := a.wall - a.off

/-- Absolute instant of an aware parsed datetime. -/
def instantP (d : PyDT) (o : Int) : Int := d.wall - o

/-- Timezone resolution of source lines 160-169: a naive datetime gets the
context zone attached to its unchanged wall reading
(`replace(tzinfo=local_tz)`); an aware one is converted to the context zone
preserving its absolute instant (`astimezone(local_tz)`). -/
def resolveTz (tz : Int) (d : PyDT) : AwDT :=
  match d.off with
  | none => ⟨d.wall, tz⟩
  | some o => ⟨d.wall - o + tz, tz⟩

/-- `datetime + timedelta(days=k)` on an aware datetime with a fixed-offset
zone: the wall reading advances by `k` whole days, the zone is unchanged. -/
def addDays (k : Int) (a : AwDT) : AwDT := ⟨a.wall + 86400 * k, a.off⟩

/-- Python `datetime.weekday()`: 0 = Monday … 6 = Sunday, computed from the
wall-clock date (1970-01-01 was a Thursday, weekday 3). -/
def weekdayA (a : AwDT) : Int := (a.wall.fdiv 86400 + 3).emod 7

/-- The day jump of source lines 175-177: `days_ahead = 4 - weekday()`, and
`if days_ahead <= 0: days_ahead += 7`. -/
def fridayDelta (a : AwDT) : Int :=
  if 4 - weekdayA a ≤ 0 then 4 - weekdayA a + 7 else 4 - weekdayA a

/-! ### `datetime.fromisoformat` -/

/-- Read exactly two decimal digits. -/
def d2 : List Char → Option (Nat × List Char)
  | a :: b :: r =>
    if a.isDigit && b.isDigit then
      some ((a.toNat - 48) * 10 + (b.toNat - 48), r)
    else none
  | _ => none

/-- Read exactly four decimal digits. -/
def d4 : List Char → Option (Nat × List Char)
  | a :: b :: c :: d :: r =>
    if a.isDigit && b.isDigit && c.isDigit && d.isDigit then
      some ((((a.toNat - 48) * 10 + (b.toNat - 48)) * 10 + (c.toNat - 48)) * 10
              + (d.toNat - 48), r)
    else none
  | _ => none

/-- Expect one literal character. -/
def expectC (c : Char) : List Char → Option (List Char)
  | x :: r => if x = c then some r else none
  | [] => none

/-- Optional trailing UTC-offset designator: empty input means naive, `Z`
means UTC, `±HH:MM` a fixed offset.  Returns the offset in seconds. -/
def pOffset : List Char → Option (Option Int)
  | [] => some none
  | ['Z'] => some (some 0)
  | s :: r =>
    if s = '+' || s = '-' then
      match d2 r with
      | some (oh, r₁) =>
        match expectC ':' r₁ with
        | some r₂ =>
          match d2 r₂ with
          | some (om, r₃) =>
            if r₃ = [] && oh < 24 && om < 60 then
              let secs : Int := (oh : Int) * 3600 + (om : Int) * 60
              some (some (if s = '-' then -secs else secs))
            else none
          | none => none
        | none => none
      | none => none
    else none

/-- Optional `:SS` seconds field. -/
def pSeconds : List Char → Option (Nat × List Char)
  | ':' :: r =>
    match d2 r with
    | some (ss, r') => if ss < 60 then some (ss, r') else none
    | none => none
  | l => some (0, l)

/-- Model of `datetime.fromisoformat` for the shapes this program feeds it:
`YYYY-MM-DD`, optionally followed by `T` or a space and `HH:MM[:SS]`,
optionally followed by `Z` or `±HH:MM`.  Returns `none` for anything
unparseable (`ValueError` in Python).  Fractional seconds and the other
exotic forms accepted by CPython 3.11+ are outside the model; no input
considered here uses them. -/
def fromiso (l : List Char) : Option PyDT := do
  let (y, r₁) ← d4 l
  let r₂ ← expectC '-' r₁
  let (mo, r₃) ← d2 r₂
  let r₄ ← expectC '-' r₃
  let (dy, r₅) ← d2 r₄
  if 1 ≤ mo ∧ mo ≤ 12 ∧ 1 ≤ dy ∧ (dy : Int) ≤ daysInMonth y mo then
    let dayWall : Int := daysFromCivil y mo dy * 86400
    match r₅ with
    | [] => some ⟨dayWall, none⟩
    | sep :: r₆ =>
      if sep = 'T' || sep = ' ' then do
        let (hh, r₇) ← d2 r₆
        let r₈ ← expectC ':' r₇
        let (mi, r₉) ← d2 r₈
        let (ss, r₁₀) ← pSeconds r₉
        if hh < 24 ∧ mi < 60 then
          let off ← pOffset r₁₀
          some ⟨dayWall + (hh : Int) * 3600 + (mi : Int) * 60 + (ss : Int), off⟩
        else none
      else none
  else none

example : fromiso "2024-01-01T09:00:00".data = some ⟨1704099600, none⟩ := by rfl
example : fromiso "2024-03-15T14:30:00-07:00".data =
    some ⟨1710513000, some (-25200)⟩ := by rfl
example : fromiso "not-a-date".data = none := by rfl
example : fromiso "2024-13-01T00:00:00".data = none := by rfl

/-! ### `datetime.isoformat` -/

/-- Decimal digit character. -/
def digitChar (n : Nat) : Char := Char.ofNat (48 + n % 10)

/-- Two-digit zero-padded rendering. -/
def pad2 (n : Nat) : List Char := [digitChar (n / 10), digitChar n]

/-- Four-digit zero-padded rendering. -/
def pad4 (n : Nat) : List Char :=
  [digitChar (n / 1000), digitChar (n / 100), digitChar (n / 10), digitChar n]

/-- `isoformat()` of an aware datetime with a fixed-offset zone:
`YYYY-MM-DDTHH:MM:SS±HH:MM` (microseconds are zero throughout this model, so
CPython omits them; the offset has whole minutes). -/
def isoformatA (a : AwDT) : List Char :=
  let days := a.wall.fdiv 86400
  let secs := (a.wall.emod 86400).toNat
  let c := civilFromDays days
  let offAbs := a.off.natAbs
  pad4 c.1.toNat ++ '-' :: pad2 c.2.1.toNat ++ '-' :: pad2 c.2.2.toNat ++
    'T' :: pad2 (secs / 3600) ++ ':' :: pad2 (secs % 3600 / 60) ++
    ':' :: pad2 (secs % 60) ++
    (if a.off < 0 then '-' else '+') :: pad2 (offAbs / 3600) ++
    ':' :: pad2 (offAbs % 3600 / 60)

example : isoformatA ⟨1705050000, 0⟩ = "2024-01-12T09:00:00+00:00".data := by
  rfl
example : isoformatA ⟨1710513000, -25200⟩ =
    "2024-03-15T14:30:00-07:00".data := by rfl

/-! ## Python exceptions and `dict` access -/

/-- The exceptions the normalizer can raise: `KeyError` from `dict`
indexing, `TypeError` from indexing a non-dict, `ValueError` from
`datetime.fromisoformat`, `AttributeError` from `.lower()` on a
non-string. -/
inductive PyErr where
  | keyError : PyErr
  | typeError : PyErr
  | valueError : PyErr
  | attrError : PyErr
deriving DecidableEq

/-- Python subscript `v[k]` with a string key: `KeyError` when the key is
absent from a dict, `TypeError` when `v` is not a dict. -/
def getKey (v : JValue) (k : List Char) : Except PyErr JValue :=
  match v with
  | JValue.jobj fs =>
    match lookupPair fs k with
    | some x => Except.ok x
    | none => Except.error PyErr.keyError
  | _ => Except.error PyErr.typeError

/-- Python subscript assignment `v[k] = x` on a dict (the program only
assigns to keys it has just read, so `v` is a dict here; on a non-dict the
model returns `v` unchanged — that branch is unreachable). -/
def setKey (v : JValue) (k : List Char) (x : JValue) : JValue :=
  match v with
  | JValue.jobj fs => JValue.jobj (setPair fs k x)
  | _ => v

/-- A string-valued attribute access such as `.lower()`: `AttributeError`
on a non-string value. -/
def asStrA (v : JValue) : Except PyErr (List Char) :=
  match v with
  | JValue.jstr s => Except.ok s
  | _ => Except.error PyErr.attrError

/-- Reading a string to hand to `fromisoformat`: CPython raises `TypeError`
when the argument is not a `str`. -/
def asStrT (v : JValue) : Except PyErr (List Char) :=
  match v with
  | JValue.jstr s => Except.ok s
  | _ => Except.error PyErr.typeError

/-- The evaluation `event['summary'].lower()`-source, up to lower-casing:
fetch the summary string (source line 173). -/
def summaryStr (ev : JValue) : Except PyErr (List Char) := do
  let v ← getKey ev "summary".data
  asStrA v

/-- The evaluation `datetime.fromisoformat(event[k]['dateTime'])` of source
lines 157-158 (also 197-198): two subscripts, then the ISO parse, whose
failure is `ValueError`. -/
def getDT (ev : JValue) (k : List Char) : Except PyErr PyDT := do
  let o ← getKey ev k
  let s ← getKey o "dateTime".data
  let str ← asStrT s
  match fromiso str with
  | some dt => Except.ok dt
  | none => Except.error PyErr.valueError

/-- The temporal context: `now = datetime.now(local_tz)` as a wall reading
in the local zone plus the zone's fixed UTC offset in seconds. -/
structure Ctx where
  nowWall : Int
  tz : Int

/-- Absolute reference instant of the context. -/
def Ctx.nowInstant (c : Ctx) : Int := c.nowWall - c.tz

/-! ## The forward-projection loop (source lines 172-183) -/

/-- Day jump of one loop iteration: the next-Friday jump when the summary
contains `friday` case-insensitively, otherwise one day (source lines
173-183). -/
def stepDays (s : List Char) (st : AwDT) : Int :=
  if containsSub "friday".data (lowerL s) then fridayDelta st else 1

/-- The `while start_time < now` loop of source lines 172-183 with explicit
fuel: each iteration re-reads `event['summary']` (raising there is possible)
and advances both datetimes by `stepDays`.  `none` is fuel exhaustion, which
`advanceAux_ne_none` rules out for the canonical fuel. -/
def advanceAux (now : Int) (ev : JValue) :
    Nat → AwDT → AwDT → Option (Except PyErr (AwDT × AwDT))
  | 0, _, _ => none
  | f + 1, st, en =>
    if instantA st < now then
      match summaryStr ev with
      | Except.error e => some (Except.error e)
      | Except.ok s =>
          advanceAux now ev f
            (addDays (stepDays s st) st) (addDays (stepDays s st) en)
    else some (Except.ok (st, en))

/-- Canonical fuel for the loop: enough for one iteration per day of gap. -/
def fuelFor (now : Int) (st : AwDT) : Nat := (now - instantA st).toNat + 1

theorem weekdayA_nonneg (a : AwDT) : 0 ≤ weekdayA a :=
  Int.emod_nonneg _ (by norm_num)

theorem weekdayA_lt (a : AwDT) : weekdayA a < 7 :=
  Int.emod_lt_of_pos _ (by norm_num)

theorem fridayDelta_pos (a : AwDT) : 1 ≤ fridayDelta a := by
  have h1 := weekdayA_nonneg a
  have h2 := weekdayA_lt a
  unfold fridayDelta
  split <;> omega

theorem fridayDelta_le (a : AwDT) : fridayDelta a ≤ 7 := by
  have h1 := weekdayA_nonneg a
  have h2 := weekdayA_lt a
  unfold fridayDelta
  split <;> omega

theorem stepDays_pos (s : List Char) (st : AwDT) : 1 ≤ stepDays s st := by
  unfold stepDays
  split
  · exact fridayDelta_pos st
  · omega

theorem instantA_addDays (k : Int) (a : AwDT) :
    instantA (addDays k a) = instantA a + 86400 * k := by
  simp [instantA, addDays]; ring

theorem addDays_addDays (j k : Int) (a : AwDT) :
    addDays j (addDays k a) = addDays (j + k) a := by
  simp [addDays]; ring

/-- One-step unfolding of the loop at a successor fuel. -/
theorem advanceAux_succ (now : Int) (ev : JValue) (f : Nat) (st en : AwDT) :
    advanceAux now ev (f + 1) st en =
      if instantA st < now then
        match summaryStr ev with
        | Except.error e => some (Except.error e)
        | Except.ok s =>
            advanceAux now ev f
              (addDays (stepDays s st) st) (addDays (stepDays s st) en)
      else some (Except.ok (st, en)) := rfl

/-- One loop step shrinks the gap to the reference instant by at least one
day. -/
theorem gap_shrinks (s : List Char) (st : AwDT) (now : Int) :
    now - instantA (addDays (stepDays s st) st) ≤ now - instantA st - 86400 := by
  rw [instantA_addDays]
  have hstep := stepDays_pos s st
  have : 86400 * 1 ≤ 86400 * stepDays s st :=
    Int.mul_le_mul_of_nonneg_left hstep (by norm_num)
  omega

/-- Fuel sufficiency: with at least one unit of fuel per `86400` seconds of
gap, the loop does not run out. -/
theorem advanceAux_suff (now : Int) (ev : JValue) :
    ∀ (f : Nat) (st en : AwDT), now - instantA st ≤ 86400 * f →
      advanceAux now ev (f + 1) st en ≠ none := by
  intro f
  induction f with
  | zero =>
    intro st en hgap
    rw [advanceAux_succ]
    have : ¬ instantA st < now := by omega
    simp [this]
  | succ f ih =>
    intro st en hgap
    rw [advanceAux_succ]
    by_cases hlt : instantA st < now
    · simp only [hlt, if_true]
      cases hs : summaryStr ev with
      | error e => simp
      | ok s =>
        simp only []
        have hg := gap_shrinks s st now
        exact ih _ (addDays (stepDays s st) en) (by omega)
    · simp [hlt]

/-- The canonical fuel is sufficient. -/
theorem advanceAux_ne_none (now : Int) (ev : JValue) (st en : AwDT) :
    advanceAux now ev (fuelFor now st) st en ≠ none := by
  apply advanceAux_suff
  have := Int.self_le_toNat (now - instantA st)
  have h0 : (0 : Int) ≤ ((now - instantA st).toNat : Int) := Int.ofNat_nonneg _
  omega

/-- Fuel irrelevance: any two sufficient fuels compute the same answer. -/
theorem advanceAux_irrel (now : Int) (ev : JValue) :
    ∀ (f g : Nat) (st en : AwDT), now - instantA st ≤ 86400 * f →
      now - instantA st ≤ 86400 * g →
      advanceAux now ev (f + 1) st en = advanceAux now ev (g + 1) st en := by
  intro f
  induction f with
  | zero =>
    intro g st en hf hg
    have : ¬ instantA st < now := by omega
    rw [advanceAux_succ, advanceAux_succ]
    simp [this]
  | succ f ih =>
    intro g st en hf hg
    rw [advanceAux_succ, advanceAux_succ]
    by_cases hlt : instantA st < now
    · have hg1 : g ≠ 0 := by
        intro h; subst h; omega
      obtain ⟨g', rfl⟩ := Nat.exists_eq_succ_of_ne_zero hg1
      simp only [hlt, if_true]
      cases hs : summaryStr ev with
      | error e => rfl
      | ok s =>
        simp only []
        have hshrink := gap_shrinks s st now
        exact ih g' _ _ (by omega) (by omega)
    · simp [hlt]

/-- The forward-projection loop as a total function: run `advanceAux` at the
canonical fuel, which cannot exhaust. -/
def advance (now : Int) (ev : JValue) (st en : AwDT) :
    Except PyErr (AwDT × AwDT) :=
  match h : advanceAux now ev (fuelFor now st) st en with
  | some r => r
  | none => absurd h (advanceAux_ne_none now ev st en)

/-- The loop value is what the canonical-fuel run returns. -/
theorem advance_spec (now : Int) (ev : JValue) (st en : AwDT) :
    advanceAux now ev (fuelFor now st) st en = some (advance now ev st en) := by
  unfold advance
  split
  · assumption
  · rename_i h
    exact absurd h (advanceAux_ne_none now ev st en)

/-- The loop equation of `while start_time < now` (source line 172): either
the loop body runs once and the loop continues, or the datetimes are
returned unchanged. -/
theorem advance_eq (now : Int) (ev : JValue) (st en : AwDT) :
    advance now ev st en =
      if instantA st < now then
        match summaryStr ev with
        | Except.error e => Except.error e
        | Except.ok s =>
            advance now ev
              (addDays (stepDays s st) st) (addDays (stepDays s st) en)
      else Except.ok (st, en) := by
  have h := advance_spec now ev st en
  rw [show fuelFor now st = (now - instantA st).toNat + 1 from rfl,
    advanceAux_succ] at h
  by_cases hlt : instantA st < now
  · simp only [hlt, if_true] at h ⊢
    cases hs : summaryStr ev with
    | error e =>
      rw [hs] at h
      simp only [] at h ⊢
      exact (Option.some.inj h).symm
    | ok s =>
      rw [hs] at h
      simp only [] at h ⊢
      have hshrink := gap_shrinks s st now
      set st' := addDays (stepDays s st) st with hst'
      set en' := addDays (stepDays s st) en with hen'
      obtain ⟨k, hk⟩ : ∃ k, (now - instantA st).toNat = k + 1 :=
        ⟨(now - instantA st).toNat - 1, by omega⟩
      rw [hk] at h
      have h2 := advance_spec now ev st' en'
      rw [show fuelFor now st' = (now - instantA st').toNat + 1 from rfl] at h2
      have hirr := advanceAux_irrel now ev k ((now - instantA st').toNat)
        st' en' (by omega) (by omega)
      rw [hirr, h2] at h
      exact (Option.some.inj h).symm
  · simp only [hlt, if_false] at h ⊢
    exact (Option.some.inj h).symm

/-- When the start instant is not strictly before the reference instant, the
loop body never runs (source edge-case: already-future events pass through
unchanged). -/
theorem advance_no_step (now : Int) (ev : JValue) (st en : AwDT)
    (h : ¬ instantA st < now) : advance now ev st en = Except.ok (st, en) := by
  rw [advance_eq]; simp [h]

/-! ## The per-event normalizer (source lines 153-188) -/

/-- Lines 156-183 for one event, up to (but not including) the write-back:
parse both timestamps, resolve their zones against the context, and run the
forward-projection loop. -/
def adjust_one_core (ctx : Ctx) (ev : JValue) : Except PyErr (AwDT × AwDT) :=
  match getDT ev "start".data with
  | Except.error e => Except.error e
  | Except.ok sd =>
    match getDT ev "end".data with
    | Except.error e => Except.error e
    | Except.ok ed =>
      advance ctx.nowInstant ev (resolveTz ctx.tz sd) (resolveTz ctx.tz ed)

/-- One full iteration of the `for event in events` body of
`_adjust_event_dates` (source lines 156-186): normalize the datetimes and
write them back as ISO strings into the event's `start`/`end` dicts. -/
def adjust_one (ctx : Ctx) (ev : JValue) : Except PyErr JValue :=
  match adjust_one_core ctx ev with
  | Except.error e => Except.error e
  | Except.ok p =>
    match getKey ev "start".data, getKey ev "end".data with
    | Except.ok sObj, Except.ok eObj =>
      Except.ok (setKey
        (setKey ev "start".data
          (setKey sObj "dateTime".data (JValue.jstr (isoformatA p.1))))
        "end".data
        (setKey eObj "dateTime".data (JValue.jstr (isoformatA p.2))))
    | Except.error e, _ => Except.error e
    | _, Except.error e => Except.error e

/-- `_adjust_event_dates` (source lines 153-188): adjust every event; the
first exception aborts the whole traversal (there is no `try` inside the
function). -/
def adjust_event_dates (ctx : Ctx) (events : List JValue) :
    Except PyErr (List JValue) :=
  events.mapM (adjust_one ctx)

/-- The decode-and-normalize tail of `_extract_calendar_events` (source
lines 134-151), as a function of the generated text: clean the fences, decode
JSON (`none` = `json.JSONDecodeError`, caught at line 145 returning `[]`),
dispatch on the decoded shape (list / single object / other), and adjust the
dates — any exception from the adjustment reaches the outer
`except Exception` of line 149, which also returns `[]`.  The function is
total: extraction failure never raises to the caller. -/
def extract_calendar_events (ctx : Ctx) (text : List Char) : List JValue :=
  match jsonDecode (cleanText text) with
  | none => []
  | some v =>
    match v with
    | JValue.jarr evs =>
      match adjust_event_dates ctx evs with
      | Except.ok r => r
      | Except.error _ => []
    | JValue.jobj fs =>
      match adjust_event_dates ctx [JValue.jobj fs] with
      | Except.ok r => r
      | Except.error _ => []
    | _ => []

/-! ## Confirmation gate and display (source lines 48-58, 190-202) -/

/-- Subtraction of two parsed datetimes (`end - start`, source line 199):
both naive compares wall readings, both aware compares instants, mixed raises
`TypeError` in Python. -/
def durationSecs (s e : PyDT) : Except PyErr Int :=
  match s.off, e.off with
  | none, none => Except.ok (e.wall - s.wall)
  | some a, some b => Except.ok ((e.wall - b) - (s.wall - a))
  | _, _ => Except.error PyErr.typeError

/-- `_calculate_duration` (source lines 196-202): re-parse both timestamps,
subtract, and split `duration.seconds` — the `timedelta` seconds *component*,
i.e. the total seconds modulo 86400 — by `divmod(·, 3600)` and `// 60`.
Returns the `(hours, minutes)` pair that the source interpolates into the
string `f"{hours} hours and {minutes} minutes"`. -/
def calculate_duration (ev : JValue) : Except PyErr (Int × Int) :=
  match getDT ev "start".data with
  | Except.error e => Except.error e
  | Except.ok sd =>
    match getDT ev "end".data with
    | Except.error e => Except.error e
    | Except.ok ed =>
      match durationSecs sd ed with
      | Except.error e => Except.error e
      | Except.ok t =>
        Except.ok ((t.emod 86400).fdiv 3600, ((t.emod 86400).emod 3600).fdiv 60)

/-- The data displayed for one event by `_ask_for_confirmation` (source
lines 190-194), in evaluation order of the f-string on line 193:
`event['summary']`, then `event['start']['dateTime']`, then
`_calculate_duration(event)`.  A missing key raises `KeyError`. -/
def confirm_item (ev : JValue) :
    Except PyErr (JValue × JValue × (Int × Int)) :=
  match getKey ev "summary".data with
  | Except.error e => Except.error e
  | Except.ok s =>
    match getKey ev "start".data with
    | Except.error e => Except.error e
    | Except.ok sObj =>
      match getKey sObj "dateTime".data with
      | Except.error e => Except.error e
      | Except.ok sdt =>
        match calculate_duration ev with
        | Except.error e => Except.error e
        | Except.ok d => Except.ok (s, sdt, d)

/-- The per-event display loop of `_ask_for_confirmation`: a missing key in
any event raises `KeyError` out of the confirmation gate. -/
def confirm_items (events : List JValue) :
    Except PyErr (List (JValue × JValue × (Int × Int))) :=
  events.mapM confirm_item

/-- Python `dict.get(k, default)`.  In the source it is applied only to dict
values; on a non-dict the model returns the default (unreachable branch). -/
def pyGet (v : JValue) (k : List Char) (d : JValue) : JValue :=
  match v with
  | JValue.jobj fs =>
    match lookupPair fs k with
    | some x => x
    | none => d
  | _ => d

/-- The detection line of `chat` (source line 58): title and start time with
defaults, `event.get('summary', 'Untitled Event')` and
`event.get('start', {}).get('dateTime', 'No time specified')`. -/
def chat_detect_line (ev : JValue) : JValue × JValue :=
  (pyGet ev "summary".data (JValue.jstr "Untitled Event".data),
   pyGet (pyGet ev "start".data (JValue.jobj []))
     "dateTime".data (JValue.jstr "No time specified".data))

/-! ## Concrete fixtures -/

/-- The spec's end-to-end raw text: one Friday-standup event starting
2024-01-01T09:00:00 (naive) with zone name UTC. -/
def exampleText : List Char :=
  ("\x7b\"summary\":\"Friday standup\"," ++
   "\"start\":\x7b\"dateTime\":\"2024-01-01T09:00:00\",\"timeZone\":\"UTC\"\x7d," ++
   "\"end\":\x7b\"dateTime\":\"2024-01-01T09:30:00\",\"timeZone\":\"UTC\"\x7d\x7d").data

/-- The spec's reference instant: Saturday 2024-01-06T08:00:00 UTC, in a UTC
local zone (offset 0). -/
def exampleCtx : Ctx := ⟨19728 * 86400 + 8 * 3600, 0⟩

example : exampleCtx.nowWall = 1704528000 := by decide

/-- The normalized event the pipeline produces from `exampleText`. -/
def exampleOut : JValue :=
  JValue.jobj
    [("summary".data, JValue.jstr "Friday standup".data),
     ("start".data, JValue.jobj
       [("dateTime".data, JValue.jstr "2024-01-12T09:00:00+00:00".data),
        ("timeZone".data, JValue.jstr "UTC".data)]),
     ("end".data, JValue.jobj
       [("dateTime".data, JValue.jstr "2024-01-12T09:30:00+00:00".data),
        ("timeZone".data, JValue.jstr "UTC".data)])]

example : extract_calendar_events exampleCtx exampleText = [exampleOut] := by
  rfl

/-! ## Equations and transparency of the fence substitution -/

theorem reSubFenceAux_nil : ∀ g, reSubFenceAux g [] = [] := by
  intro g; cases g <;> rfl

theorem reSubFenceAux_succ (f : Nat) (c : Char) (cs : List Char) :
    reSubFenceAux (f + 1) (c :: cs) =
      if startsWithL fenceTagL (c :: cs) then
        reSubFenceAux f (((c :: cs).drop 7).dropWhile isPySpace)
      else if startsWithL ticksL ((c :: cs).dropWhile isPySpace) then
        reSubFenceAux f (((c :: cs).dropWhile isPySpace).drop 3)
      else c :: reSubFenceAux f cs := rfl

theorem startsWithL_le_length :
    ∀ (p l : List Char), startsWithL p l = true → p.length ≤ l.length := by
  intro p
  induction p with
  | nil => intro l _; simp
  | cons a p ih =>
    intro l h
    cases l with
    | nil => simp [startsWithL] at h
    | cons c cs =>
      simp only [startsWithL, Bool.and_eq_true] at h
      have := ih cs h.2
      simp only [List.length_cons]
      omega

theorem length_dropWhile_le' (p : Char → Bool) (l : List Char) :
    (l.dropWhile p).length ≤ l.length :=
  (List.dropWhile_sublist p).length_le

theorem fenceTagL_length : fenceTagL.length = 7 := rfl

theorem ticksL_length : ticksL.length = 3 := rfl

/-- The scanning pass computes the same list at any sufficient fuel. -/
theorem reSubFenceAux_irrel :
    ∀ (f g : Nat) (l : List Char), l.length ≤ f → l.length ≤ g →
      reSubFenceAux f l = reSubFenceAux g l := by
  intro f
  induction f with
  | zero =>
    intro g l hf _
    have : l = [] := List.length_eq_zero.mp (by omega)
    subst this
    rw [reSubFenceAux_nil, reSubFenceAux_nil]
  | succ f ih =>
    intro g l hf hg
    cases l with
    | nil => rw [reSubFenceAux_nil, reSubFenceAux_nil]
    | cons c cs =>
      cases g with
      | zero => simp at hg
      | succ g' =>
        rw [reSubFenceAux_succ, reSubFenceAux_succ]
        simp only [List.length_cons] at hf hg
        by_cases h1 : startsWithL fenceTagL (c :: cs) = true
        · rw [if_pos h1, if_pos h1]
          have h7 := startsWithL_le_length _ _ h1
          rw [fenceTagL_length] at h7
          simp only [List.length_cons] at h7
          have hd1 : (((c :: cs).drop 7).dropWhile isPySpace).length ≤
              ((c :: cs).drop 7).length := length_dropWhile_le' _ _
          have hd2 : ((c :: cs).drop 7).length = cs.length + 1 - 7 := by
            rw [List.length_drop]; rfl
          exact ih g' _ (by omega) (by omega)
        · rw [if_neg h1, if_neg h1]
          by_cases h2 : startsWithL ticksL ((c :: cs).dropWhile isPySpace) = true
          · rw [if_pos h2, if_pos h2]
            have h3 := startsWithL_le_length _ _ h2
            rw [ticksL_length] at h3
            have hdw : ((c :: cs).dropWhile isPySpace).length ≤ cs.length + 1 := by
              have := length_dropWhile_le' isPySpace (c :: cs)
              simpa using this
            have hd : (((c :: cs).dropWhile isPySpace).drop 3).length =
                ((c :: cs).dropWhile isPySpace).length - 3 := by
              rw [List.length_drop]
            exact ih g' _ (by omega) (by omega)
          · rw [if_neg h2, if_neg h2]
            exact congrArg (List.cons c) (ih g' cs (by omega) (by omega))

/-- Equation of the canonical substitution on a non-empty input. -/
theorem reSubFence_cons (c : Char) (cs : List Char) :
    reSubFence (c :: cs) =
      if startsWithL fenceTagL (c :: cs) then
        reSubFence (((c :: cs).drop 7).dropWhile isPySpace)
      else if startsWithL ticksL ((c :: cs).dropWhile isPySpace) then
        reSubFence (((c :: cs).dropWhile isPySpace).drop 3)
      else c :: reSubFence cs := by
  show reSubFenceAux (c :: cs).length (c :: cs) = _
  rw [show (c :: cs).length = cs.length + 1 from rfl, reSubFenceAux_succ]
  by_cases h1 : startsWithL fenceTagL (c :: cs) = true
  · rw [if_pos h1, if_pos h1]
    have h7 := startsWithL_le_length _ _ h1
    rw [fenceTagL_length] at h7
    simp only [List.length_cons] at h7
    have hd1 : (((c :: cs).drop 7).dropWhile isPySpace).length ≤
        ((c :: cs).drop 7).length := length_dropWhile_le' _ _
    have hd2 : ((c :: cs).drop 7).length = cs.length + 1 - 7 := by
      rw [List.length_drop]; rfl
    exact reSubFenceAux_irrel _ _ _ (by omega) (le_refl _)
  · rw [if_neg h1, if_neg h1]
    by_cases h2 : startsWithL ticksL ((c :: cs).dropWhile isPySpace) = true
    · rw [if_pos h2, if_pos h2]
      have h3 := startsWithL_le_length _ _ h2
      rw [ticksL_length] at h3
      have hdw : ((c :: cs).dropWhile isPySpace).length ≤ cs.length + 1 := by
        have := length_dropWhile_le' isPySpace (c :: cs)
        simpa using this
      have hd : (((c :: cs).dropWhile isPySpace).drop 3).length =
          ((c :: cs).dropWhile isPySpace).length - 3 := by
        rw [List.length_drop]
      exact reSubFenceAux_irrel _ _ _ (by omega) (le_refl _)
    · rw [if_neg h2, if_neg h2]
      rfl

/-- A whitespace character is not a backtick. -/
theorem ws_ne_tick {c : Char} (h : isPySpace c = true) : c ≠ tickChar := by
  intro he
  rw [he] at h
  exact absurd h (by decide)

theorem startsWithL_cons_of_ne {p c : Char} (ps cs : List Char) (h : p ≠ c) :
    startsWithL (p :: ps) (c :: cs) = false := by
  simp [startsWithL, h]

theorem not_fence_of_ne_tick {c : Char} (cs : List Char) (h : c ≠ tickChar) :
    startsWithL fenceTagL (c :: cs) = false := by
  rw [show fenceTagL =
    tickChar :: ('\x60' :: '\x60' :: 'j' :: 's' :: 'o' :: 'n' :: []) from rfl]
  exact startsWithL_cons_of_ne _ _ (Ne.symm h)

theorem not_ticks_of_ne_tick {c : Char} (cs : List Char) (h : c ≠ tickChar) :
    startsWithL ticksL (c :: cs) = false := by
  rw [show ticksL = tickChar :: ('\x60' :: '\x60' :: []) from rfl]
  exact startsWithL_cons_of_ne _ _ (Ne.symm h)

theorem startsWithL_append_self :
    ∀ (p r : List Char), startsWithL p (p ++ r) = true := by
  intro p
  induction p with
  | nil => intro r; rfl
  | cons a p ih => intro r; simp [startsWithL, ih]

/-- Whether a character list ends in a non-whitespace character. -/
def endsNonWs : List Char → Bool
  | [] => false
  | [c] => !isPySpace c
  | _ :: cs => endsNonWs cs

theorem endsNonWs_cons₂ (a b : Char) (l : List Char) :
    endsNonWs (a :: b :: l) = endsNonWs (b :: l) := rfl

theorem endsNonWs_dropWhile_ne_nil :
    ∀ l, endsNonWs l = true → l.dropWhile isPySpace ≠ [] := by
  intro l
  induction l with
  | nil => intro h; simp [endsNonWs] at h
  | cons a t ih =>
    intro h
    cases t with
    | nil =>
      have hws : isPySpace a = false := by simpa [endsNonWs] using h
      rw [List.dropWhile_cons, if_neg (by simp [hws])]
      simp
    | cons b t2 =>
      rw [endsNonWs_cons₂] at h
      by_cases hws : isPySpace a = true
      · rw [List.dropWhile_cons, if_pos hws]
        exact ih h
      · rw [List.dropWhile_cons, if_neg hws]
        simp

theorem endsNonWs_dropWhile :
    ∀ l, endsNonWs l = true → endsNonWs (l.dropWhile isPySpace) = true := by
  intro l
  induction l with
  | nil => intro h; simp [endsNonWs] at h
  | cons a t ih =>
    intro h
    cases t with
    | nil =>
      have hws : isPySpace a = false := by simpa [endsNonWs] using h
      rw [List.dropWhile_cons, if_neg (by simp [hws])]
      exact h
    | cons b t2 =>
      rw [endsNonWs_cons₂] at h
      by_cases hws : isPySpace a = true
      · rw [List.dropWhile_cons, if_pos hws]
        exact ih h
      · rw [List.dropWhile_cons, if_neg hws]
        rw [endsNonWs_cons₂]
        exact h

/-- A character that matches neither alternative is emitted unchanged. -/
theorem noMatch_step (c : Char) (cs : List Char) (hws : isPySpace c = false)
    (ht : c ≠ tickChar) : reSubFence (c :: cs) = c :: reSubFence cs := by
  have hdw : (c :: cs).dropWhile isPySpace = c :: cs := by
    rw [List.dropWhile_cons, if_neg (by simp [hws])]
  rw [reSubFence_cons, hdw,
    if_neg (show ¬ (startsWithL fenceTagL (c :: cs) = true) by
      simp [not_fence_of_ne_tick cs ht]),
    if_neg (show ¬ (startsWithL ticksL (c :: cs) = true) by
      simp [not_ticks_of_ne_tick cs ht])]

/-- The head of a non-empty `dropWhile` result fails the predicate. -/
theorem dropWhile_head_false {p : Char → Bool} :
    ∀ {l : List Char} {x : Char} {xs : List Char},
      l.dropWhile p = x :: xs → p x = false := by
  intro l
  induction l with
  | nil => intro x xs h; simp at h
  | cons a t ih =>
    intro x xs h
    rw [List.dropWhile_cons] at h
    by_cases ha : p a = true
    · rw [if_pos ha] at h
      exact ih h
    · rw [if_neg ha] at h
      injection h with h1 _
      subst h1
      rw [Bool.not_eq_true] at ha
      exact ha

/-- Transparency: the scan passes over a backtick-free block that does not
end in whitespace, touching nothing, and continues on the remainder. -/
theorem resub_transparent :
    ∀ (js tail : List Char), (∀ c ∈ js, c ≠ tickChar) →
      endsNonWs js = true →
      reSubFence (js ++ tail) = js ++ reSubFence tail := by
  intro js
  induction js with
  | nil => intro tail _ h; simp [endsNonWs] at h
  | cons a t ih =>
    intro tail hnt h
    cases t with
    | nil =>
      have hws : isPySpace a = false := by simpa [endsNonWs] using h
      have hta : a ≠ tickChar := hnt a (List.mem_cons_self _ _)
      simpa using noMatch_step a tail hws hta
    | cons b t2 =>
      have h' : endsNonWs (b :: t2) = true := h
      have hnt' : ∀ c ∈ b :: t2, c ≠ tickChar :=
        fun c hc => hnt c (List.mem_cons_of_mem _ hc)
      have hta : a ≠ tickChar := hnt a (List.mem_cons_self _ _)
      by_cases hws : isPySpace a = true
      · rw [show (a :: b :: t2) ++ tail = a :: ((b :: t2) ++ tail) from rfl]
        rw [reSubFence_cons]
        rw [if_neg (by simp [not_fence_of_ne_tick _ hta])]
        have hne := endsNonWs_dropWhile_ne_nil (b :: t2) h'
        have hdd : (a :: ((b :: t2) ++ tail)).dropWhile isPySpace
            = ((b :: t2).dropWhile isPySpace) ++ tail := by
          rw [List.dropWhile_cons, if_pos hws, List.dropWhile_append]
          rw [if_neg (by simpa [List.isEmpty_iff] using hne)]
        rw [hdd]
        obtain ⟨x, xs, hx⟩ := List.exists_cons_of_ne_nil hne
        have hxws : isPySpace x = false := dropWhile_head_false hx
        have hxmem : x ∈ b :: t2 :=
          (List.dropWhile_sublist _).subset (by rw [hx]; simp)
        have hxt : x ≠ tickChar := hnt' x hxmem
        have hc2 : startsWithL ticksL
            (((b :: t2).dropWhile isPySpace) ++ tail) = false := by
          rw [hx, show (x :: xs) ++ tail = x :: (xs ++ tail) from rfl]
          exact not_ticks_of_ne_tick _ hxt
        rw [if_neg (by simp [hc2])]
        rw [ih tail hnt' h']
        rfl
      · rw [Bool.not_eq_true] at hws
        rw [show (a :: b :: t2) ++ tail = a :: ((b :: t2) ++ tail) from rfl,
          noMatch_step a _ hws hta, ih tail hnt' h']
        rfl

/-- A Markdown fence wrapping with the `json` language tag. -/
def wrapJsonFence (js : List Char) : List Char :=
  fenceTagL ++ ('\n' :: (js ++ ('\n' :: ticksL)))

/-- A bare Markdown fence wrapping (no language tag). -/
def wrapBareFence (js : List Char) : List Char :=
  ticksL ++ ('\n' :: (js ++ ('\n' :: ticksL)))

/-- A Markdown fence wrapping with the `python` language tag. -/
def wrapPythonFence (js : List Char) : List Char :=
  (ticksL ++ "python".data) ++ ('\n' :: (js ++ ('\n' :: ticksL)))

/-- At a fence-tag prefix the first alternative fires: the tag and the
following whitespace run are deleted. -/
theorem resub_fence_tag (rest : List Char) :
    reSubFence (fenceTagL ++ rest) = reSubFence (rest.dropWhile isPySpace) := by
  have hsplit : fenceTagL ++ rest =
      tickChar :: (('\x60' :: '\x60' :: 'j' :: 's' :: 'o' :: 'n' :: []) ++ rest) :=
    rfl
  rw [hsplit, reSubFence_cons]
  have hc1 : startsWithL fenceTagL
      (tickChar :: (('\x60' :: '\x60' :: 'j' :: 's' :: 'o' :: 'n' :: []) ++ rest))
      = true := by
    rw [← hsplit]; exact startsWithL_append_self _ _
  rw [if_pos hc1]
  have hdrop :
      ((tickChar :: (('\x60' :: '\x60' :: 'j' :: 's' :: 'o' :: 'n' :: []) ++
        rest)).drop 7) = rest := by
    rw [← hsplit, show (7 : Nat) = fenceTagL.length from rfl, List.drop_left]
  rw [hdrop]

/-- At a bare-tick prefix followed by a newline the second alternative fires:
exactly the three backticks are deleted. -/
theorem resub_bare_ticks (X : List Char) :
    reSubFence (ticksL ++ ('\n' :: X)) = reSubFence ('\n' :: X) := by
  have hsplit : ticksL ++ ('\n' :: X) =
      tickChar :: (tickChar :: tickChar :: '\n' :: X) := rfl
  rw [hsplit, reSubFence_cons]
  have hc1 : startsWithL fenceTagL (tickChar :: tickChar :: tickChar :: '\n' :: X)
      = false := rfl
  rw [if_neg (by simp [hc1])]
  have hdw : (tickChar :: (tickChar :: tickChar :: '\n' :: X)).dropWhile isPySpace
      = tickChar :: tickChar :: tickChar :: '\n' :: X := rfl
  rw [hdw]
  have hc2 : startsWithL ticksL (tickChar :: tickChar :: tickChar :: '\n' :: X)
      = true := rfl
  rw [if_pos hc2]
  rfl

/-- The leftover closing fence dissolves to nothing. -/
theorem resub_closing : reSubFence ('\n' :: ticksL) = [] := rfl

/-- The scan of a newline followed by a protected block and the closing
fence: the newline survives, the block survives, the closing fence
dissolves. -/
theorem resub_nl_body (js : List Char)
    (hnt : ∀ c ∈ js, c ≠ tickChar) (hend : endsNonWs js = true) :
    reSubFence ('\n' :: (js ++ ('\n' :: ticksL))) = '\n' :: js := by
  rw [reSubFence_cons]
  rw [if_neg (show ¬ (startsWithL fenceTagL
      ('\n' :: (js ++ ('\n' :: ticksL))) = true) by
    simp [not_fence_of_ne_tick _ (show '\n' ≠ tickChar by decide)])]
  have hne := endsNonWs_dropWhile_ne_nil js hend
  have hdd : ('\n' :: (js ++ ('\n' :: ticksL))).dropWhile isPySpace
      = (js.dropWhile isPySpace) ++ ('\n' :: ticksL) := by
    rw [List.dropWhile_cons, if_pos (show isPySpace '\n' = true from rfl),
      List.dropWhile_append, if_neg (by simpa [List.isEmpty_iff] using hne)]
  rw [hdd]
  obtain ⟨x, xs, hx⟩ := List.exists_cons_of_ne_nil hne
  have hxt : x ≠ tickChar :=
    hnt x ((List.dropWhile_sublist _).subset (by rw [hx]; simp))
  have hc2 : startsWithL ticksL ((js.dropWhile isPySpace) ++ ('\n' :: ticksL))
      = false := by
    rw [hx, show (x :: xs) ++ ('\n' :: ticksL) = x :: (xs ++ ('\n' :: ticksL))
      from rfl]
    exact not_ticks_of_ne_tick _ hxt
  rw [if_neg (by simp [hc2])]
  rw [resub_transparent js ('\n' :: ticksL) hnt hend, resub_closing,
    List.append_nil]

/-- Idempotence of the leading strip. -/
theorem dropWhile_ws_idem (l : List Char) :
    (l.dropWhile isPySpace).dropWhile isPySpace = l.dropWhile isPySpace := by
  cases hx : l.dropWhile isPySpace with
  | nil => rfl
  | cons x xs =>
    have := dropWhile_head_false hx
    rw [List.dropWhile_cons, if_neg (by simp [this])]

theorem stripL_dropWhile (l : List Char) :
    stripL (l.dropWhile isPySpace) = stripL l := by
  unfold stripL
  rw [dropWhile_ws_idem]

theorem stripL_cons_ws (c : Char) (l : List Char) (h : isPySpace c = true) :
    stripL (c :: l) = stripL l := by
  unfold stripL
  rw [List.dropWhile_cons, if_pos h]

/-- Fence-stripping with the `json` language tag is invisible to the cleaned
text, for a backtick-free payload not ending in whitespace. -/
theorem cleanText_wrapJson (js : List Char)
    (hnt : ∀ c ∈ js, c ≠ tickChar) (hend : endsNonWs js = true) :
    cleanText (wrapJsonFence js) = cleanText js := by
  unfold cleanText wrapJsonFence
  rw [resub_fence_tag]
  have hid : reSubFence js = js := by
    have := resub_transparent js [] hnt hend
    simpa [show reSubFence [] = ([] : List Char) from rfl] using this
  rw [hid]
  have hne := endsNonWs_dropWhile_ne_nil js hend
  have hdd : ('\n' :: (js ++ ('\n' :: ticksL))).dropWhile isPySpace
      = (js.dropWhile isPySpace) ++ ('\n' :: ticksL) := by
    rw [List.dropWhile_cons, if_pos (show isPySpace '\n' = true from rfl),
      List.dropWhile_append, if_neg (by simpa [List.isEmpty_iff] using hne)]
  rw [hdd]
  have hnt' : ∀ c ∈ js.dropWhile isPySpace, c ≠ tickChar :=
    fun c hc => hnt c ((List.dropWhile_sublist _).subset hc)
  have hend' := endsNonWs_dropWhile js hend
  rw [resub_transparent _ _ hnt' hend', resub_closing, List.append_nil,
    stripL_dropWhile]

/-- Fence-stripping with a bare fence is invisible to the cleaned text, for a
backtick-free payload not ending in whitespace. -/
theorem cleanText_wrapBare (js : List Char)
    (hnt : ∀ c ∈ js, c ≠ tickChar) (hend : endsNonWs js = true) :
    cleanText (wrapBareFence js) = cleanText js := by
  unfold cleanText wrapBareFence
  rw [resub_bare_ticks, resub_nl_body js hnt hend]
  have hid : reSubFence js = js := by
    have := resub_transparent js [] hnt hend
    simpa [show reSubFence [] = ([] : List Char) from rfl] using this
  rw [hid, stripL_cons_ws _ _ (show isPySpace '\n' = true from rfl)]

/-! ## Universal properties of the forward-projection loop -/

theorem addDays_zero (a : AwDT) : addDays 0 a = a := by
  simp [addDays]

theorem addDays_one_nat (k : Nat) (a : AwDT) :
    addDays 1 (addDays (k : Int) a) = addDays ((k : Int) + 1) a := by
  rw [addDays_addDays]; ring_nf

/-- The loop only ever stops with a start at or after the reference
instant. -/
theorem advanceAux_ok_lower (now : Int) (ev : JValue) :
    ∀ (f : Nat) (st en st' en' : AwDT),
      advanceAux now ev f st en = some (Except.ok (st', en')) →
      now ≤ instantA st' := by
  intro f
  induction f with
  | zero =>
    intro st en st' en' h
    exact Option.noConfusion h
  | succ f ih =>
    intro st en st' en' h
    rw [advanceAux_succ] at h
    by_cases hlt : instantA st < now
    · rw [if_pos hlt] at h
      cases hs : summaryStr ev with
      | error e => rw [hs] at h; simp at h
      | ok s =>
        rw [hs] at h
        exact ih _ _ _ _ h
    · rw [if_neg hlt] at h
      simp only [Option.some.injEq, Except.ok.injEq, Prod.mk.injEq] at h
      obtain ⟨h1, _⟩ := h
      subst h1
      omega

/-- The loop moves start and end by the same amount: the instant difference
is invariant. -/
theorem advanceAux_ok_dur (now : Int) (ev : JValue) :
    ∀ (f : Nat) (st en st' en' : AwDT),
      advanceAux now ev f st en = some (Except.ok (st', en')) →
      instantA en' - instantA st' = instantA en - instantA st := by
  intro f
  induction f with
  | zero =>
    intro st en st' en' h
    exact Option.noConfusion h
  | succ f ih =>
    intro st en st' en' h
    rw [advanceAux_succ] at h
    by_cases hlt : instantA st < now
    · rw [if_pos hlt] at h
      cases hs : summaryStr ev with
      | error e => rw [hs] at h; simp at h
      | ok s =>
        rw [hs] at h
        have := ih _ _ _ _ h
        rw [instantA_addDays, instantA_addDays] at this
        omega
    · rw [if_neg hlt] at h
      simp only [Option.some.injEq, Except.ok.injEq, Prod.mk.injEq] at h
      obtain ⟨h1, h2⟩ := h
      subst h1; subst h2
      rfl

/-- For a summary without `friday`, the loop is a sequence of one-day steps
that stops at the first day whose start is no longer strictly before the
reference instant. -/
theorem advanceAux_ok_nofri (now : Int) (ev : JValue) (s : List Char)
    (hs : summaryStr ev = Except.ok s)
    (hf : containsSub "friday".data (lowerL s) = false) :
    ∀ (f : Nat) (st en st' en' : AwDT),
      advanceAux now ev f st en = some (Except.ok (st', en')) →
      ∃ k : Nat, st' = addDays (k : Int) st ∧ en' = addDays (k : Int) en ∧
        now ≤ instantA st + 86400 * (k : Int) ∧
        ∀ j : Nat, j < k → instantA st + 86400 * (j : Int) < now := by
  intro f
  induction f with
  | zero =>
    intro st en st' en' h
    exact Option.noConfusion h
  | succ f ih =>
    intro st en st' en' h
    rw [advanceAux_succ] at h
    by_cases hlt : instantA st < now
    · rw [if_pos hlt, hs] at h
      simp only [] at h
      rw [show stepDays s st = 1 by simp [stepDays, hf]] at h
      obtain ⟨k, hst, hen, hle, hmin⟩ := ih _ _ _ _ h
      refine ⟨k + 1, ?_, ?_, ?_, ?_⟩
      · rw [hst, addDays_addDays]
        congr 1
      · rw [hen, addDays_addDays]
        congr 1
      · rw [instantA_addDays] at hle
        push_cast
        omega
      · intro j hj
        cases j with
        | zero => simpa using hlt
        | succ j' =>
          have := hmin j' (by omega)
          rw [instantA_addDays] at this
          push_cast at this ⊢
          omega
    · rw [if_neg hlt] at h
      simp only [Option.some.injEq, Except.ok.injEq, Prod.mk.injEq] at h
      obtain ⟨h1, h2⟩ := h
      refine ⟨0, by rw [← h1]; simp [addDays_zero], by rw [← h2]; simp [addDays_zero], by simpa using hlt, by omega⟩

theorem advance_ok_lower (now : Int) (ev : JValue) (st en st' en' : AwDT)
    (h : advance now ev st en = Except.ok (st', en')) : now ≤ instantA st' := by
  have hsp := advance_spec now ev st en
  rw [h] at hsp
  exact advanceAux_ok_lower now ev _ st en st' en' hsp

theorem advance_ok_dur (now : Int) (ev : JValue) (st en st' en' : AwDT)
    (h : advance now ev st en = Except.ok (st', en')) :
    instantA en' - instantA st' = instantA en - instantA st := by
  have hsp := advance_spec now ev st en
  rw [h] at hsp
  exact advanceAux_ok_dur now ev _ st en st' en' hsp

theorem advance_ok_nofri (now : Int) (ev : JValue) (s : List Char)
    (hs : summaryStr ev = Except.ok s)
    (hf : containsSub "friday".data (lowerL s) = false)
    (st en st' en' : AwDT)
    (h : advance now ev st en = Except.ok (st', en')) :
    ∃ k : Nat, st' = addDays (k : Int) st ∧ en' = addDays (k : Int) en ∧
      now ≤ instantA st + 86400 * (k : Int) ∧
      ∀ j : Nat, j < k → instantA st + 86400 * (j : Int) < now := by
  have hsp := advance_spec now ev st en
  rw [h] at hsp
  exact advanceAux_ok_nofri now ev s hs hf _ st en st' en' hsp

/-! ## Pipeline-level inversion lemmas -/

/-- A successful per-event normalization decomposes into two successful
timestamp reads and a successful loop run on the zone-resolved values. -/
theorem adjust_one_core_ok_inv {ctx : Ctx} {ev : JValue} {p : AwDT × AwDT}
    (h : adjust_one_core ctx ev = Except.ok p) :
    ∃ sd ed, getDT ev "start".data = Except.ok sd ∧
      getDT ev "end".data = Except.ok ed ∧
      advance ctx.nowInstant ev (resolveTz ctx.tz sd) (resolveTz ctx.tz ed) =
        Except.ok p := by
  unfold adjust_one_core at h
  cases h1 : getDT ev "start".data with
  | error e => rw [h1] at h; exact absurd h (by simp)
  | ok sd =>
    rw [h1] at h
    cases h2 : getDT ev "end".data with
    | error e => rw [h2] at h; exact absurd h (by simp)
    | ok ed =>
      rw [h2] at h
      exact ⟨sd, ed, rfl, rfl, h⟩

/-- With both timestamps readable, the per-event normalization is exactly the
loop on the zone-resolved values. -/
theorem adjust_one_core_ok_eq {ctx : Ctx} {ev : JValue} {sd ed : PyDT}
    (hs : getDT ev "start".data = Except.ok sd)
    (he : getDT ev "end".data = Except.ok ed) :
    adjust_one_core ctx ev =
      advance ctx.nowInstant ev (resolveTz ctx.tz sd) (resolveTz ctx.tz ed) := by
  unfold adjust_one_core
  rw [hs, he]

/-- A decoded list whose adjustment raises yields an empty extraction (the
exception reaches the catch-all of source line 149). -/
theorem extract_error_empty {ctx : Ctx} {t : List Char} {evs : List JValue}
    {e : PyErr} (hd : jsonDecode (cleanText t) = some (JValue.jarr evs))
    (ha : adjust_event_dates ctx evs = Except.error e) :
    extract_calendar_events ctx t = [] := by
  unfold extract_calendar_events
  rw [hd]
  dsimp only []
  rw [ha]

/-! ## Concrete fixtures for the claims -/

/-- The candidate event decoded from `exampleText`, before adjustment. -/
def exampleEvent : JValue :=
  JValue.jobj
    [("summary".data, JValue.jstr "Friday standup".data),
     ("start".data, JValue.jobj
       [("dateTime".data, JValue.jstr "2024-01-01T09:00:00".data),
        ("timeZone".data, JValue.jstr "UTC".data)]),
     ("end".data, JValue.jobj
       [("dateTime".data, JValue.jstr "2024-01-01T09:30:00".data),
        ("timeZone".data, JValue.jstr "UTC".data)])]

example : jsonDecode (cleanText exampleText) = some exampleEvent := by rfl

/-- An event whose zone-resolved start equals the reference instant exactly
(2024-01-06T08:00:00, naive, in a UTC context whose reference instant is
2024-01-06T08:00:00). -/
def eventAtNow : JValue :=
  JValue.jobj
    [("summary".data, JValue.jstr "Standup".data),
     ("start".data, JValue.jobj
       [("dateTime".data, JValue.jstr "2024-01-06T08:00:00".data)]),
     ("end".data, JValue.jobj
       [("dateTime".data, JValue.jstr "2024-01-06T09:00:00".data)])]

/-- An event exactly one day in the past relative to `exampleCtx`, with no
weekday name in its summary. -/
def eventOneDayPast : JValue :=
  JValue.jobj
    [("summary".data, JValue.jstr "Daily sync".data),
     ("start".data, JValue.jobj
       [("dateTime".data, JValue.jstr "2024-01-05T08:00:00".data)]),
     ("end".data, JValue.jobj
       [("dateTime".data, JValue.jstr "2024-01-05T09:00:00".data)])]

/-- A several-days-past event with no weekday name in its summary. -/
def eventThreeDaysPast : JValue :=
  JValue.jobj
    [("summary".data, JValue.jstr "Team sync".data),
     ("start".data, JValue.jobj
       [("dateTime".data, JValue.jstr "2024-01-03T09:00:00".data)]),
     ("end".data, JValue.jobj
       [("dateTime".data, JValue.jstr "2024-01-03T10:00:00".data)])]

/-- A two-event batch whose first event has an unparseable start
timestamp and whose second is well-formed and future-dated. -/
def batchText : List Char :=
  ("[\x7b\"summary\":\"Broken\"," ++
   "\"start\":\x7b\"dateTime\":\"not-a-date\"\x7d," ++
   "\"end\":\x7b\"dateTime\":\"2099-01-01T10:00:00\"\x7d\x7d," ++
   "\x7b\"summary\":\"Fine\"," ++
   "\"start\":\x7b\"dateTime\":\"2099-01-01T09:00:00\"\x7d," ++
   "\"end\":\x7b\"dateTime\":\"2099-01-01T10:00:00\"\x7d\x7d]").data

/-- The well-formed sibling of `batchText`, alone. -/
def siblingText : List Char :=
  ("\x7b\"summary\":\"Fine\"," ++
   "\"start\":\x7b\"dateTime\":\"2099-01-01T09:00:00\"\x7d," ++
   "\"end\":\x7b\"dateTime\":\"2099-01-01T10:00:00\"\x7d\x7d").data

/-- The decoded candidate list of `batchText`. -/
def batchEvents : List JValue :=
  [JValue.jobj
    [("summary".data, JValue.jstr "Broken".data),
     ("start".data, JValue.jobj
       [("dateTime".data, JValue.jstr "not-a-date".data)]),
     ("end".data, JValue.jobj
       [("dateTime".data, JValue.jstr "2099-01-01T10:00:00".data)])],
   JValue.jobj
    [("summary".data, JValue.jstr "Fine".data),
     ("start".data, JValue.jobj
       [("dateTime".data, JValue.jstr "2099-01-01T09:00:00".data)]),
     ("end".data, JValue.jobj
       [("dateTime".data, JValue.jstr "2099-01-01T10:00:00".data)])]]

example : jsonDecode (cleanText batchText) = some (JValue.jarr batchEvents) := by
  rfl

/-- The normalized sibling: zone attached, no projection (already future). -/
def siblingOut : JValue :=
  JValue.jobj
    [("summary".data, JValue.jstr "Fine".data),
     ("start".data, JValue.jobj
       [("dateTime".data, JValue.jstr "2099-01-01T09:00:00+00:00".data)]),
     ("end".data, JValue.jobj
       [("dateTime".data, JValue.jstr "2099-01-01T10:00:00+00:00".data)])]

/-- An already-future, already-zone-aware event (offsets `-07:00`). -/
def eventAware : JValue :=
  JValue.jobj
    [("summary".data, JValue.jstr "Trip".data),
     ("start".data, JValue.jobj
       [("dateTime".data, JValue.jstr "2099-03-15T14:30:00-07:00".data)]),
     ("end".data, JValue.jobj
       [("dateTime".data, JValue.jstr "2099-03-15T15:30:00-07:00".data)])]

/-- A 25-hour event with parseable aware timestamps. -/
def event25h : JValue :=
  JValue.jobj
    [("summary".data, JValue.jstr "Offsite".data),
     ("start".data, JValue.jobj
       [("dateTime".data, JValue.jstr "2024-01-12T09:00:00+00:00".data)]),
     ("end".data, JValue.jobj
       [("dateTime".data, JValue.jstr "2024-01-13T10:00:00+00:00".data)])]

/-- A well-formed event with no `summary` key, past-dated relative to
`exampleCtx`. -/
def eventNoSummaryPast : JValue :=
  JValue.jobj
    [("start".data, JValue.jobj
       [("dateTime".data, JValue.jstr "2024-01-01T09:00:00".data)]),
     ("end".data, JValue.jobj
       [("dateTime".data, JValue.jstr "2024-01-01T09:30:00".data)])]

/-- A well-formed event with no `summary` key, future-dated relative to
`exampleCtx`. -/
def eventNoSummaryFut : JValue :=
  JValue.jobj
    [("start".data, JValue.jobj
       [("dateTime".data, JValue.jstr "2099-01-01T09:00:00".data)]),
     ("end".data, JValue.jobj
       [("dateTime".data, JValue.jstr "2099-01-01T09:30:00".data)])]

/-- The normalization of `eventNoSummaryFut` (no summary needed: the loop
body never runs). -/
def eventNoSummaryFutOut : JValue :=
  JValue.jobj
    [("start".data, JValue.jobj
       [("dateTime".data, JValue.jstr "2099-01-01T09:00:00+00:00".data)]),
     ("end".data, JValue.jobj
       [("dateTime".data, JValue.jstr "2099-01-01T09:30:00+00:00".data)])]

/-- A context with the same reference instant as `exampleCtx` but a UTC+1
zone (offset 3600 s): local wall 2024-01-06T09:00:00. -/
def ctxPlus1 : Ctx := ⟨1704531600, 3600⟩

/-- Shape test of the decoded value: only objects and lists are accepted by
`_extract_calendar_events`. -/
def isEventShape (v : JValue) : Bool :=
  match v with
  | JValue.jobj _ => true
  | JValue.jarr _ => true
  | _ => false

/-- A compact future-dated event text used for the fence claims. -/
def fencedPayload : List Char :=
  ("\x7b\"summary\":\"Lunch\"," ++
   "\"start\":\x7b\"dateTime\":\"2099-02-01T12:00:00\"\x7d," ++
   "\"end\":\x7b\"dateTime\":\"2099-02-01T13:00:00\"\x7d\x7d").data

/-- The extraction of `fencedPayload` (already future: zone attach only). -/
def fencedPayloadOut : JValue :=
  JValue.jobj
    [("summary".data, JValue.jstr "Lunch".data),
     ("start".data, JValue.jobj
       [("dateTime".data, JValue.jstr "2099-02-01T12:00:00+00:00".data)]),
     ("end".data, JValue.jobj
       [("dateTime".data, JValue.jstr "2099-02-01T13:00:00+00:00".data)])]


/-! ## Claims -/

/-- C1 counterexample: the claim says every normalized start is strictly
after the reference instant and that a start equal to the reference is still
advanced.  On the code the loop guard is `start_time < now` (strict), so
`eventAtNow` — whose zone-resolved start instant equals `exampleCtx`'s
reference instant 2024-01-06T08:00:00 UTC exactly — is returned unadvanced,
with start equal to, not strictly after, the reference instant. -/
theorem c1_counterexample :
    adjust_one_core exampleCtx eventAtNow =
      Except.ok (⟨1704528000, 0⟩, ⟨1704531600, 0⟩) ∧
    ¬ (Ctx.nowInstant exampleCtx < instantA ⟨1704528000, 0⟩) :=
  ⟨rfl, by decide⟩

/-- C1 (corrected): the loop runs while start is strictly before the
reference instant, so every successfully normalized event has start at or
after (not necessarily strictly after) the reference instant, and an event
whose start equals the reference instant exactly is not advanced. -/
theorem c1_forward_invariant :
    (∀ (ctx : Ctx) (ev : JValue) (st' en' : AwDT),
      adjust_one_core ctx ev = Except.ok (st', en') →
      Ctx.nowInstant ctx ≤ instantA st') ∧
    (∀ (now : Int) (ev : JValue) (st en : AwDT),
      ¬ instantA st < now → advance now ev st en = Except.ok (st, en)) := by
  constructor
  · intro ctx ev st' en' h
    obtain ⟨sd, ed, _, _, hadv⟩ := adjust_one_core_ok_inv h
    exact advance_ok_lower _ _ _ _ _ _ hadv
  · intro now ev st en h
    exact advance_no_step now ev st en h

/-- C1 witness: the corrected forward invariant applied to the concrete
boundary event. -/
theorem c1_witness :
    Ctx.nowInstant exampleCtx ≤ instantA ⟨1704528000, 0⟩ :=
  c1_forward_invariant.1 exampleCtx eventAtNow ⟨1704528000, 0⟩ ⟨1704531600, 0⟩
    rfl

/-- C3: duration preservation — the normalized pair's instant difference
equals the instant difference of the zone-resolved candidate pair before
projection, for every event and every run of the projection loop. -/
theorem c3_duration_preservation :
    ∀ (ctx : Ctx) (ev : JValue) (sd ed : PyDT) (st' en' : AwDT),
      getDT ev "start".data = Except.ok sd →
      getDT ev "end".data = Except.ok ed →
      adjust_one_core ctx ev = Except.ok (st', en') →
      instantA en' - instantA st' =
        instantA (resolveTz ctx.tz ed) - instantA (resolveTz ctx.tz sd) := by
  intro ctx ev sd ed st' en' hs he h
  rw [adjust_one_core_ok_eq hs he] at h
  exact advance_ok_dur _ _ _ _ _ _ h

/-- C3 witness: duration preservation at the spec's end-to-end example (30
minutes before and after an 11-day projection). -/
theorem c3_witness :
    instantA ⟨1705051800, 0⟩ - instantA ⟨1705050000, 0⟩ =
      instantA (resolveTz exampleCtx.tz ⟨1704101400, none⟩) -
        instantA (resolveTz exampleCtx.tz ⟨1704099600, none⟩) :=
  c3_duration_preservation exampleCtx exampleEvent
    ⟨1704099600, none⟩ ⟨1704101400, none⟩ ⟨1705050000, 0⟩ ⟨1705051800, 0⟩
    rfl rfl rfl

/-- C9 counterexample: the claim says the loop stops at the first day whose
wall-clock time is strictly future.  `eventOneDayPast` starts exactly one
day before the reference instant; one one-day step lands exactly on the
reference instant and the loop stops there — the final start is not strictly
future. -/
theorem c9_counterexample :
    adjust_one_core exampleCtx eventOneDayPast =
      Except.ok (⟨1704528000, 0⟩, ⟨1704531600, 0⟩) ∧
    ¬ (Ctx.nowInstant exampleCtx < instantA ⟨1704528000, 0⟩) :=
  ⟨rfl, by decide⟩

/-- C9 (corrected): for a past-dated event with no recognized weekday in
its summary, the loop advances start and end by exactly one day per
iteration and terminates at the first day reachable by whole-day increments
whose start is at or after (not strictly after) the reference instant. -/
theorem c9_one_day_fallback :
    ∀ (now : Int) (ev : JValue) (s : List Char) (st en st' en' : AwDT),
      summaryStr ev = Except.ok s →
      containsSub "friday".data (lowerL s) = false →
      advance now ev st en = Except.ok (st', en') →
      ∃ k : Nat, st' = addDays (k : Int) st ∧ en' = addDays (k : Int) en ∧
        now ≤ instantA st + 86400 * (k : Int) ∧
        ∀ j : Nat, j < k → instantA st + 86400 * (j : Int) < now := by
  intro now ev s st en st' en' hs hf h
  exact advance_ok_nofri now ev s hs hf st en st' en' h

/-- C9 witness: a three-days-past event with summary `Team sync` is advanced
to the first at-or-after day, three one-day steps later. -/
theorem c9_witness :
    ∃ k : Nat, (⟨1704531600, 0⟩ : AwDT) = addDays (k : Int) ⟨1704272400, 0⟩ ∧
      (⟨1704535200, 0⟩ : AwDT) = addDays (k : Int) ⟨1704276000, 0⟩ ∧
      1704528000 ≤ instantA ⟨1704272400, 0⟩ + 86400 * (k : Int) ∧
      ∀ j : Nat, j < k →
        instantA ⟨1704272400, 0⟩ + 86400 * (j : Int) < 1704528000 :=
  c9_one_day_fallback 1704528000 eventThreeDaysPast "Team sync".data
    ⟨1704272400, 0⟩ ⟨1704276000, 0⟩ ⟨1704531600, 0⟩ ⟨1704535200, 0⟩
    rfl rfl rfl

/-- C4: the Friday rule.  First conjunct: an offset-zero Friday maps to +7,
never 0.  Second conjunct: one projection step of a past-dated event whose
summary contains `friday` case-insensitively advances both start and end by
`fridayDelta` days (`4 - weekday`, plus 7 when zero or negative).  Third
conjunct: the spec's end-to-end example — `Friday standup` starting
2024-01-01T09:00:00 UTC with reference instant Saturday 2024-01-06T08:00:00
UTC — normalizes to 2024-01-12T09:00:00 / 09:30:00 (+00:00). -/
theorem c4_friday_rule :
    (∀ st : AwDT, weekdayA st = 4 → fridayDelta st = 7) ∧
    (∀ (now : Int) (ev : JValue) (s : List Char) (st en : AwDT),
      summaryStr ev = Except.ok s →
      containsSub "friday".data (lowerL s) = true →
      instantA st < now →
      advance now ev st en =
        advance now ev (addDays (fridayDelta st) st)
          (addDays (fridayDelta st) en)) ∧
    extract_calendar_events exampleCtx exampleText = [exampleOut] := by
  refine ⟨?_, ?_, ?_⟩
  · intro st hw
    unfold fridayDelta
    rw [hw]
    norm_num
  · intro now ev s st en hs hcf hlt
    rw [advance_eq, if_pos hlt, hs]
    dsimp only []
    rw [show stepDays s st = fridayDelta st by simp [stepDays, hcf]]
  · rfl

/-- C4 witness: the tie-break at a concrete Friday wall clock
(2024-01-12T09:00:00) and one concrete Friday projection step. -/
theorem c4_witness :
    fridayDelta ⟨1705050000, 0⟩ = 7 ∧
    advance 1704528000 exampleEvent ⟨1704099600, 0⟩ ⟨1704101400, 0⟩ =
      advance 1704528000 exampleEvent
        (addDays (fridayDelta ⟨1704099600, 0⟩) ⟨1704099600, 0⟩)
        (addDays (fridayDelta ⟨1704099600, 0⟩) ⟨1704101400, 0⟩) :=
  ⟨c4_friday_rule.1 ⟨1705050000, 0⟩ (by decide),
   c4_friday_rule.2.1 1704528000 exampleEvent "Friday standup".data
     ⟨1704099600, 0⟩ ⟨1704101400, 0⟩ rfl rfl (by decide)⟩

/-- C5: timezone resolution.  A naive timestamp keeps its wall reading and
is tagged with the context zone; an aware timestamp keeps its absolute
instant and is re-expressed in the context zone; consequently an
already-future, already-aware event passes through the normalizer as the
mere zone conversion of its two timestamps — its absolute instants are
untouched. -/
theorem c5_timezone_resolution :
    (∀ (tz : Int) (d : PyDT), d.off = none → resolveTz tz d = ⟨d.wall, tz⟩) ∧
    (∀ (tz : Int) (d : PyDT) (o : Int), d.off = some o →
      (resolveTz tz d).off = tz ∧ instantA (resolveTz tz d) = d.wall - o) ∧
    (∀ (ctx : Ctx) (ev : JValue) (sd ed : PyDT) (oS : Int),
      getDT ev "start".data = Except.ok sd →
      getDT ev "end".data = Except.ok ed →
      sd.off = some oS →
      Ctx.nowInstant ctx < sd.wall - oS →
      adjust_one_core ctx ev =
        Except.ok (resolveTz ctx.tz sd, resolveTz ctx.tz ed)) := by
  refine ⟨?_, ?_, ?_⟩
  · intro tz d h
    unfold resolveTz
    rw [h]
  · intro tz d o h
    have hr : resolveTz tz d = ⟨d.wall - o + tz, tz⟩ := by
      unfold resolveTz
      rw [h]
    rw [hr]
    refine ⟨rfl, ?_⟩
    show d.wall - o + tz - tz = d.wall - o
    ring
  · intro ctx ev sd ed oS hs he hoff hfut
    rw [adjust_one_core_ok_eq hs he]
    apply advance_no_step
    have hi : instantA (resolveTz ctx.tz sd) = sd.wall - oS := by
      have hr : resolveTz ctx.tz sd = ⟨sd.wall - oS + ctx.tz, ctx.tz⟩ := by
        unfold resolveTz
        rw [hoff]
      rw [hr]
      show sd.wall - oS + ctx.tz - ctx.tz = sd.wall - oS
      ring
    rw [hi]
    omega

/-- C5 witness: the already-future, already-aware `eventAware` (offsets
`-07:00`) normalizes in the UTC+1 context to the pure zone conversion of its
timestamps. -/
theorem c5_witness :
    adjust_one_core ctxPlus1 eventAware =
      Except.ok (resolveTz ctxPlus1.tz ⟨4077268200, some (-25200)⟩,
        resolveTz ctxPlus1.tz ⟨4077271800, some (-25200)⟩) :=
  c5_timezone_resolution.2.2 ctxPlus1 eventAware
    ⟨4077268200, some (-25200)⟩ ⟨4077271800, some (-25200)⟩ (-25200)
    rfl rfl rfl (by decide)

/-- C2 counterexample: the claim says a batch with one unparseable event
still yields the parseable siblings.  On the code the `ValueError` from
`datetime.fromisoformat` propagates out of `_adjust_event_dates` to the
catch-all of `_extract_calendar_events`, which returns `[]`: the batch is
empty although the sibling alone extracts fine. -/
theorem c2_counterexample :
    extract_calendar_events exampleCtx batchText = [] ∧
    extract_calendar_events exampleCtx siblingText = [siblingOut] :=
  ⟨rfl, rfl⟩

/-- C2 (corrected): one failing event empties the whole batch — whenever the
decoded list's adjustment raises, extraction returns the empty sequence,
siblings included. -/
theorem c2_batch_abort :
    ∀ (ctx : Ctx) (t : List Char) (evs : List JValue) (e : PyErr),
      jsonDecode (cleanText t) = some (JValue.jarr evs) →
      adjust_event_dates ctx evs = Except.error e →
      extract_calendar_events ctx t = [] := by
  intro ctx t evs e hd ha
  exact extract_error_empty hd ha

/-- C2 witness: the two-event batch with one bad timestamp extracts to
nothing. -/
theorem c2_witness : extract_calendar_events exampleCtx batchText = [] :=
  c2_batch_abort exampleCtx batchText batchEvents PyErr.valueError rfl rfl

/-- C6: soft decode — whenever structured decoding of the cleaned text fails
or yields neither an object nor a list, extraction returns the empty
sequence; the function is total, so no exception reaches the caller. -/
theorem c6_soft_decode :
    ∀ (ctx : Ctx) (t : List Char),
      (jsonDecode (cleanText t) = none ∨
        ∃ v, jsonDecode (cleanText t) = some v ∧ isEventShape v = false) →
      extract_calendar_events ctx t = [] := by
  intro ctx t h
  unfold extract_calendar_events
  rcases h with h | ⟨v, hv, hs⟩
  · rw [h]
  · rw [hv]
    dsimp only []
    cases v with
    | jobj fs => simp [isEventShape] at hs
    | jarr xs => simp [isEventShape] at hs
    | jnull => rfl
    | jbool b => rfl
    | jnum n => rfl
    | jstr s => rfl

/-- C6 witness: the literal text `no events here` yields the empty
sequence. -/
theorem c6_witness :
    extract_calendar_events exampleCtx "no events here".data = [] :=
  c6_soft_decode exampleCtx "no events here".data (Or.inl rfl)

/-- C7 counterexample: the claim says fences of any language tag strip
cleanly.  The regex only knows the `json` tag and bare fences: wrapping the
same JSON in a `python`-tagged fence leaves the characters `python` glued to
the payload, decoding fails, and extraction is empty — unlike the unwrapped
text. -/
theorem c7_counterexample :
    extract_calendar_events exampleCtx (wrapPythonFence fencedPayload) = [] ∧
    extract_calendar_events exampleCtx fencedPayload = [fencedPayloadOut] :=
  ⟨rfl, rfl⟩

/-- C7 (corrected): for fence markers with the `json` tag or no tag, and a
backtick-free payload not ending in whitespace, wrapped and unwrapped texts
extract identically. -/
theorem c7_fence_stripping :
    ∀ (ctx : Ctx) (js : List Char),
      (∀ c ∈ js, c ≠ tickChar) → endsNonWs js = true →
      extract_calendar_events ctx (wrapJsonFence js) =
        extract_calendar_events ctx js ∧
      extract_calendar_events ctx (wrapBareFence js) =
        extract_calendar_events ctx js := by
  intro ctx js hnt hend
  constructor
  · unfold extract_calendar_events
    rw [cleanText_wrapJson js hnt hend]
  · unfold extract_calendar_events
    rw [cleanText_wrapBare js hnt hend]

/-- C7 witness: the fence equivalence applied to the concrete payload. -/
theorem c7_witness :
    extract_calendar_events exampleCtx (wrapJsonFence fencedPayload) =
      extract_calendar_events exampleCtx fencedPayload ∧
    extract_calendar_events exampleCtx (wrapBareFence fencedPayload) =
      extract_calendar_events exampleCtx fencedPayload :=
  c7_fence_stripping exampleCtx fencedPayload (by decide) (by decide)

/-- C8 counterexample: the claim says a missing `summary` is tolerated
end-to-end and shown as `Untitled`.  On the code, normalizing a past-dated
summaryless event raises `KeyError` at `event['summary']` (line 173), and the
confirmation display raises `KeyError` at `event['summary']` (line 193) even
for a well-formed future event. -/
theorem c8_counterexample :
    adjust_one exampleCtx eventNoSummaryPast = Except.error PyErr.keyError ∧
    confirm_items [eventNoSummaryFut] = Except.error PyErr.keyError :=
  ⟨rfl, rfl⟩

/-- On a dict with no `summary` key, subscripting raises `KeyError`. -/
theorem getKey_summary_missing {fs : List (List Char × JValue)}
    (hnone : lookupPair fs "summary".data = none) :
    getKey (JValue.jobj fs) "summary".data = Except.error PyErr.keyError := by
  unfold getKey
  dsimp only []
  rw [hnone]

/-- `event['summary'].lower()` raises `KeyError` on a dict with no
`summary` key. -/
theorem summaryStr_missing {fs : List (List Char × JValue)}
    (hnone : lookupPair fs "summary".data = none) :
    summaryStr (JValue.jobj fs) = Except.error PyErr.keyError := by
  unfold summaryStr
  rw [getKey_summary_missing hnone]
  rfl

/-- A successful timestamp read implies the event subscript itself
succeeded. -/
theorem getDT_ok_getKey {ev : JValue} {k : List Char} {sd : PyDT}
    (h : getDT ev k = Except.ok sd) : ∃ o, getKey ev k = Except.ok o := by
  cases h1 : getKey ev k with
  | error e =>
    unfold getDT at h
    rw [h1] at h
    exact absurd h (by simp [Bind.bind, Except.bind])
  | ok o => exact ⟨o, rfl⟩

/-- One confirmation line for a summaryless event raises `KeyError`. -/
theorem confirm_item_missing {fs : List (List Char × JValue)}
    (hnone : lookupPair fs "summary".data = none) :
    confirm_item (JValue.jobj fs) = Except.error PyErr.keyError := by
  unfold confirm_item
  rw [getKey_summary_missing hnone]

/-- C8 (corrected): only the detection display of `chat` (line 58) tolerates
a missing summary, substituting `Untitled Event` (first conjunct, for every
summaryless event); normalization tolerates the absence exactly when no
projection step runs — every event with readable timestamps whose resolved
start is not strictly before the reference instant normalizes successfully
with or without a summary (second conjunct), while every summaryless
past-dated one raises `KeyError` (third conjunct); and the confirmation
display raises `KeyError` for every batch headed by a summaryless event
(fourth conjunct). -/
theorem c8_untitled :
    (∀ fs : List (List Char × JValue), lookupPair fs "summary".data = none →
      (chat_detect_line (JValue.jobj fs)).1 =
        JValue.jstr "Untitled Event".data) ∧
    (∀ (ctx : Ctx) (ev : JValue) (sd ed : PyDT),
      getDT ev "start".data = Except.ok sd →
      getDT ev "end".data = Except.ok ed →
      ¬ instantA (resolveTz ctx.tz sd) < Ctx.nowInstant ctx →
      ∃ out, adjust_one ctx ev = Except.ok out) ∧
    (∀ (ctx : Ctx) (fs : List (List Char × JValue)) (sd ed : PyDT),
      lookupPair fs "summary".data = none →
      getDT (JValue.jobj fs) "start".data = Except.ok sd →
      getDT (JValue.jobj fs) "end".data = Except.ok ed →
      instantA (resolveTz ctx.tz sd) < Ctx.nowInstant ctx →
      adjust_one ctx (JValue.jobj fs) = Except.error PyErr.keyError) ∧
    (∀ (fs : List (List Char × JValue)) (rest : List JValue),
      lookupPair fs "summary".data = none →
      confirm_items (JValue.jobj fs :: rest) = Except.error PyErr.keyError) := by
  refine ⟨?_, ?_, ?_, ?_⟩
  · intro fs hnone
    unfold chat_detect_line pyGet
    dsimp only []
    rw [hnone]
  · intro ctx ev sd ed hs he hfut
    have hcore : adjust_one_core ctx ev =
        Except.ok (resolveTz ctx.tz sd, resolveTz ctx.tz ed) := by
      rw [adjust_one_core_ok_eq hs he, advance_no_step _ _ _ _ hfut]
    obtain ⟨sO, hsO⟩ := getDT_ok_getKey hs
    obtain ⟨eO, heO⟩ := getDT_ok_getKey he
    refine ⟨setKey
        (setKey ev "start".data
          (setKey sO "dateTime".data
            (JValue.jstr (isoformatA (resolveTz ctx.tz sd)))))
        "end".data
        (setKey eO "dateTime".data
          (JValue.jstr (isoformatA (resolveTz ctx.tz ed)))), ?_⟩
    unfold adjust_one
    rw [hcore]
    dsimp only []
    rw [hsO, heO]
  · intro ctx fs sd ed hnone hs he hlt
    have hcore : adjust_one_core ctx (JValue.jobj fs) =
        Except.error PyErr.keyError := by
      rw [adjust_one_core_ok_eq hs he, advance_eq, if_pos hlt,
        summaryStr_missing hnone]
    unfold adjust_one
    rw [hcore]
  · intro fs rest hnone
    unfold confirm_items
    rw [List.mapM_cons, confirm_item_missing hnone]
    rfl

/-- C8 witness: the universal tolerance and failure statements applied to
the concrete summaryless events. -/
theorem c8_witness :
    (chat_detect_line eventNoSummaryFut).1 =
      JValue.jstr "Untitled Event".data ∧
    (∃ out, adjust_one exampleCtx eventNoSummaryFut = Except.ok out) ∧
    adjust_one exampleCtx eventNoSummaryPast = Except.error PyErr.keyError ∧
    confirm_items [eventNoSummaryFut] = Except.error PyErr.keyError :=
  ⟨c8_untitled.1 _ rfl,
   c8_untitled.2.1 exampleCtx eventNoSummaryFut
     ⟨4070941200, none⟩ ⟨4070943000, none⟩ rfl rfl (by decide),
   c8_untitled.2.2.1 exampleCtx _ ⟨1704099600, none⟩ ⟨1704101400, none⟩
     rfl rfl rfl (by decide),
   c8_untitled.2.2.2 _ [] rfl⟩

/-- C10 counterexample: the claim derives hours from the total elapsed
seconds.  The code divides `duration.seconds` — the `timedelta` seconds
component, total modulo 86400 — so the 25-hour `event25h` displays as 1 hour
0 minutes, not 25 hours. -/
theorem c10_counterexample :
    calculate_duration event25h = Except.ok (1, 0) ∧
    (90000 : Int).fdiv 3600 = 25 ∧ (1 : Int) ≠ 25 :=
  ⟨rfl, by decide, by decide⟩

/-- C10 (corrected): the displayed pair is hours =
`(total mod 86400) div 3600` and minutes = `((total mod 86400) mod 3600)
div 60`; for durations of less than 24 hours this coincides with the
claim's total-seconds formula. -/
theorem c10_duration_display :
    ∀ (ev : JValue) (sd ed : PyDT) (t : Int),
      getDT ev "start".data = Except.ok sd →
      getDT ev "end".data = Except.ok ed →
      durationSecs sd ed = Except.ok t →
      calculate_duration ev =
        Except.ok ((t.emod 86400).fdiv 3600,
          ((t.emod 86400).emod 3600).fdiv 60) ∧
      (0 ≤ t → t < 86400 →
        calculate_duration ev =
          Except.ok (t.fdiv 3600, (t.emod 3600).fdiv 60)) := by
  intro ev sd ed t hs he ht
  have hcd : calculate_duration ev =
      Except.ok ((t.emod 86400).fdiv 3600,
        ((t.emod 86400).emod 3600).fdiv 60) := by
    unfold calculate_duration
    rw [hs]
    dsimp only []
    rw [he]
    dsimp only []
    rw [ht]
  refine ⟨hcd, fun h0 hlt => ?_⟩
  rw [hcd]
  have h1 : t.emod 86400 = t := Int.emod_eq_of_lt h0 hlt
  rw [h1]

/-- C10 witness: the 30-minute normalized example event displays as 0 hours
30 minutes, matching the total-seconds formula below 24 hours. -/
theorem c10_witness :
    calculate_duration exampleOut =
      Except.ok ((1800 : Int).fdiv 3600, ((1800 : Int).emod 3600).fdiv 60) :=
  (c10_duration_display exampleOut ⟨1705050000, some 0⟩ ⟨1705051800, some 0⟩
    1800 rfl rfl rfl).2 (by decide) (by decide)
